import Mathlib

/-!
Verification development for the transcript normalization and rendering
pipeline of `claude_chat_viewer.py` (a viewer for line-delimited JSON chat
transcripts).  Python strings are modeled as `List Char`, decoded JSON
values as the inductive `PyVal`, and the fallible operations (those that can
raise in Python) as `Except Unit` computations.
-/

namespace ChatViewer

/-- Convert a Lean string literal into the `List Char` model of Python strings. -/
def s2l (s : String) : List Char := s.toList

/-- A single-quote character (used by the model of Python `repr`). -/
def sq : Char := Char.ofNat 39

/-- A backtick character (used by the markdown-ish regex substitutions). -/
def bt : Char := Char.ofNat 96

/-- An opening curly brace character. -/
def lbrace : Char := Char.ofNat 123

/-- A closing curly brace character. -/
def rbrace : Char := Char.ofNat 125

/-- Model of a decoded Python value (the result of `json.loads` restricted to
what JSON can produce: `None`, booleans, integers, strings, lists and
string-keyed dicts, the dict keeping insertion order as an association list). -/
inductive PyVal where
  | null : PyVal
  | bool (b : Bool) : PyVal
  | int (n : Int) : PyVal
  | str (s : List Char) : PyVal
  | list (xs : List PyVal) : PyVal
  | dict (entries : List (List Char × PyVal)) : PyVal

/-- Shorthand for a Python string value. -/
def pstr (s : String) : PyVal := PyVal.str s.toList

/-- Model of Python `d.get(key, default)` on a dict represented as an
association list (first matching key wins; `json.loads` produces unique keys). -/
def dget : List (List Char × PyVal) → List Char → PyVal → PyVal
  | [], _, v => v
  | (k, v) :: rest, key, v0 => if k = key then v else dget rest key v0

/-- Python truthiness (`bool(v)`) for the modeled values. -/
def pyTruthy : PyVal → Bool
  | PyVal.null => false
  | PyVal.bool b => b
  | PyVal.int n => !(n == 0)
  | PyVal.str s => !s.isEmpty
  | PyVal.list xs => !xs.isEmpty
  | PyVal.dict es => !es.isEmpty

/-- Python `v == "lit"` for a string literal: only a `str` with the same
characters compares equal (no other JSON value equals a string in Python). -/
def pyEqS (v : PyVal) (s : List Char) : Bool :=
  match v with
  | PyVal.str t => t = s
  | _ => false

/-- Whether the value is a Python `str` (`isinstance(v, str)`). -/
def isStrB : PyVal → Bool
  | PyVal.str _ => true
  | _ => false

/-- Whether the value is a Python `list` (`isinstance(v, list)`). -/
def isListB : PyVal → Bool
  | PyVal.list _ => true
  | _ => false

example : s2l "ab" = ['a', 'b'] := rfl

example : dget [(s2l "type", pstr "summary")] (s2l "type") PyVal.null = pstr "summary" := rfl

example : pyEqS (pstr "summary") (s2l "summary") = true := rfl

/-!
## Message normalizer (`parse_session`, source lines 657-704)

One input line of a transcript is either malformed JSON (or blank), which
`parse_session` skips silently, or one decoded JSON object (the spec's
RawRecord is "one decoded JSON object", so a record is a dict).
-/

/-- One line of a transcript: either a line that fails to decode (malformed
JSON, or blank after `strip()`), or a decoded JSON object. -/
inductive Line where
  | bad : Line
  | record (entries : List (List Char × PyVal)) : Line

/-- A normalized message, as appended by `parse_session` (source lines 688-693). -/
structure Msg where
  role : PyVal
  content : PyVal
  timestamp : PyVal
  uuid : PyVal

/-- The `session_info` dict built by `parse_session`: a field is `none` while
its key is absent from the dict. -/
structure SessionInfo where
  summary : Option PyVal := none
  sessionId : Option PyVal := none
  cwd : Option PyVal := none
  version : Option PyVal := none

/-- Truthiness of `session_info.get(key)`: `None` (absent key) is falsy,
otherwise Python truthiness of the stored value. -/
def truthyOpt : Option PyVal → Bool
  | none => false
  | some v => pyTruthy v

/-- The loop of `parse_session` (source lines 663-702), with the accumulated
`messages` list and `session_info` passed explicitly.  A record whose
`message` value is truthy but not a dict makes `msg.get` raise
`AttributeError`, which `parse_session` does not catch: this is the
`Except.error` case. -/
def parseFrom (ms : List Msg) (si : SessionInfo) :
    List Line → Except Unit (List Msg × SessionInfo)
  | [] => Except.ok (ms, si)
  | Line.bad :: rest => parseFrom ms si rest
  | Line.record data :: rest =>
    if pyEqS (dget data (s2l "type") PyVal.null) (s2l "summary") then
      parseFrom ms { si with summary := some (dget data (s2l "summary") (pstr "")) } rest
    else if pyEqS (dget data (s2l "type") PyVal.null) (s2l "file-history-snapshot") then
      parseFrom ms si rest
    else
      match dget data (s2l "message") (PyVal.dict []) with
      | PyVal.dict md =>
        if pyTruthy (PyVal.dict md) = false then parseFrom ms si rest
        else
          let role := dget md (s2l "role") (dget data (s2l "type") (pstr ""))
          if pyEqS role (s2l "user") || pyEqS role (s2l "assistant") then
            let m : Msg :=
              { role := role
                content := dget md (s2l "content") (pstr "")
                timestamp := dget data (s2l "timestamp") (pstr "")
                uuid := dget data (s2l "uuid") (pstr "") }
            if truthyOpt si.sessionId = false then
              parseFrom (ms ++ [m])
                { si with
                  sessionId := some (dget data (s2l "sessionId") (pstr ""))
                  cwd := some (dget data (s2l "cwd") (pstr ""))
                  version := some (dget data (s2l "version") (pstr "")) } rest
            else parseFrom (ms ++ [m]) si rest
          else parseFrom ms si rest
      | m => if pyTruthy m = false then parseFrom ms si rest else Except.error ()

/-- `parse_session`: normalize one transcript into its message list and
session metadata (source lines 657-704). -/
def parse_session (lines : List Line) : Except Unit (List Msg × SessionInfo) :=
  parseFrom [] {} lines

/-- Whether processing this line makes `parse_session` raise (a truthy
non-dict `message` value, on which `msg.get` raises `AttributeError`). -/
def lineRaises : Line → Bool
  | Line.bad => false
  | Line.record data =>
    if pyEqS (dget data (s2l "type") PyVal.null) (s2l "summary") then false
    else if pyEqS (dget data (s2l "type") PyVal.null) (s2l "file-history-snapshot") then false
    else
      match dget data (s2l "message") (PyVal.dict []) with
      | PyVal.dict _ => false
      | m => pyTruthy m

/-- The message (if any) that one line contributes to the output list. -/
def emitMsg : Line → Option Msg
  | Line.bad => none
  | Line.record data =>
    if pyEqS (dget data (s2l "type") PyVal.null) (s2l "summary") then none
    else if pyEqS (dget data (s2l "type") PyVal.null) (s2l "file-history-snapshot") then none
    else
      match dget data (s2l "message") (PyVal.dict []) with
      | PyVal.dict md =>
        if pyTruthy (PyVal.dict md) = false then none
        else
          let role := dget md (s2l "role") (dget data (s2l "type") (pstr ""))
          if pyEqS role (s2l "user") || pyEqS role (s2l "assistant") then
            some
              { role := role
                content := dget md (s2l "content") (pstr "")
                timestamp := dget data (s2l "timestamp") (pstr "")
                uuid := dget data (s2l "uuid") (pstr "") }
          else none
      | _ => none

/-- The effect of one line on `session_info`. -/
def upd (si : SessionInfo) : Line → SessionInfo
  | Line.bad => si
  | Line.record data =>
    if pyEqS (dget data (s2l "type") PyVal.null) (s2l "summary") then
      { si with summary := some (dget data (s2l "summary") (pstr "")) }
    else if pyEqS (dget data (s2l "type") PyVal.null) (s2l "file-history-snapshot") then si
    else
      match dget data (s2l "message") (PyVal.dict []) with
      | PyVal.dict md =>
        if pyTruthy (PyVal.dict md) = false then si
        else
          let role := dget md (s2l "role") (dget data (s2l "type") (pstr ""))
          if pyEqS role (s2l "user") || pyEqS role (s2l "assistant") then
            if truthyOpt si.sessionId = false then
              { si with
                sessionId := some (dget data (s2l "sessionId") (pstr ""))
                cwd := some (dget data (s2l "cwd") (pstr ""))
                version := some (dget data (s2l "version") (pstr "")) }
            else si
          else si
      | _ => si

theorem parseFrom_step (ms : List Msg) (si : SessionInfo) (l : Line) (rest : List Line) :
    parseFrom ms si (l :: rest) =
      if lineRaises l then Except.error ()
      else parseFrom (ms ++ (emitMsg l).toList) (upd si l) rest := by
  cases l with
  | bad => simp [parseFrom, lineRaises, emitMsg, upd]
  | record data =>
    simp only [parseFrom, lineRaises, emitMsg, upd]
    by_cases h1 : pyEqS (dget data (s2l "type") PyVal.null) (s2l "summary") = true
    · simp [h1]
    · simp only [h1, if_false, Bool.false_eq_true]
      by_cases h2 : pyEqS (dget data (s2l "type") PyVal.null) (s2l "file-history-snapshot") = true
      · simp [h2]
      · simp only [h2, if_false, Bool.false_eq_true]
        rcases hm : dget data (s2l "message") (PyVal.dict []) with _ | b | n | s | xs | md
        · simp [pyTruthy]
        · cases b <;> simp [pyTruthy]
        · by_cases hz : (n == 0) = true <;> simp [pyTruthy, hz]
        · by_cases hz : s.isEmpty = true <;> simp [pyTruthy, hz]
        · by_cases hz : xs.isEmpty = true <;> simp [pyTruthy, hz]
        · by_cases ht : pyTruthy (PyVal.dict md) = false
          · simp [ht]
          · simp only [ht, if_false]
            by_cases hr :
                (pyEqS (dget md (s2l "role") (dget data (s2l "type") (pstr ""))) (s2l "user")
                  || pyEqS (dget md (s2l "role") (dget data (s2l "type") (pstr "")))
                    (s2l "assistant")) = true
            · by_cases hs : truthyOpt si.sessionId = false <;> simp [hr, hs]
            · simp [hr]

theorem parseFrom_closed (ls : List Line) :
    ∀ (ms : List Msg) (si : SessionInfo),
      parseFrom ms si ls =
        if ls.all (fun l => !lineRaises l) then
          Except.ok (ms ++ ls.filterMap emitMsg, ls.foldl upd si)
        else Except.error () := by
  induction ls with
  | nil => intro ms si; simp [parseFrom]
  | cons l rest ih =>
    intro ms si
    rw [parseFrom_step]
    by_cases hl : lineRaises l
    · simp [hl]
    · simp only [hl, if_false, List.all_cons, Bool.not_eq_true', List.filterMap_cons,
        List.foldl_cons]
      rw [ih]
      cases hml : emitMsg l with
      | none => simp [hl, hml]
      | some m => simp [hl, hml]

/-!
## Claim-side definitions for the normalizer claims
-/

/-- The `summary` value a line records into `session_info` (if any: only
records whose `type` is `summary` do, with empty-string default, source
lines 671-673). -/
def summaryOf : Line → Option PyVal
  | Line.bad => none
  | Line.record d =>
    if pyEqS (dget d (s2l "type") PyVal.null) (s2l "summary") then
      some (dget d (s2l "summary") (pstr ""))
    else none

/-- The last element of a list, if any. -/
def lastOf : List α → Option α
  | [] => none
  | [x] => some x
  | _ :: y :: ys => lastOf (y :: ys)

/-- Claim-side (amended C1): the transcript's summaryText is the summary
value of the LAST record of type `summary`, in line order. -/
def lastSummaryText (lines : List Line) : Option PyVal :=
  lastOf (lines.filterMap summaryOf)

/-- Claim-side (C4): a record's resolved role — `message.role`, falling back
to the record's own `type` discriminator when `message.role` is absent. -/
def specResolvedRole (d : List (List Char × PyVal)) : PyVal :=
  match dget d (s2l "message") (PyVal.dict []) with
  | PyVal.dict md => dget md (s2l "role") (dget d (s2l "type") (pstr ""))
  | _ => dget d (s2l "type") (pstr "")

/-- Claim-side (C4 as stated): a record counts iff its resolved role is
`user` or `assistant`. -/
def roleCounted : Line → Bool
  | Line.bad => false
  | Line.record d =>
    pyEqS (specResolvedRole d) (s2l "user") || pyEqS (specResolvedRole d) (s2l "assistant")

/-- Claim-side (amended C4): a record produces a Message iff its type is
neither `summary` nor `file-history-snapshot`, it carries a truthy `message`
value, and its resolved role is `user` or `assistant`. -/
def messageRecord : Line → Bool
  | Line.bad => false
  | Line.record d =>
    !pyEqS (dget d (s2l "type") PyVal.null) (s2l "summary")
    && !pyEqS (dget d (s2l "type") PyVal.null) (s2l "file-history-snapshot")
    && pyTruthy (dget d (s2l "message") (PyVal.dict []))
    && (pyEqS (specResolvedRole d) (s2l "user")
        || pyEqS (specResolvedRole d) (s2l "assistant"))

theorem emitMsg_of_summaryOf (l : Line) (v : PyVal) (h : summaryOf l = some v) :
    emitMsg l = none := by
  cases l with
  | bad => simp [summaryOf] at h
  | record d =>
    simp only [summaryOf] at h
    simp only [emitMsg]
    by_cases h1 : pyEqS (dget d (s2l "type") PyVal.null) (s2l "summary") = true
    · simp [h1]
    · simp [h1] at h

/-- Complete characterization of one line's effect on `session_info`. -/
theorem upd_eq (si : SessionInfo) (l : Line) :
    upd si l =
      match summaryOf l with
      | some v => { si with summary := some v }
      | none =>
        match emitMsg l with
        | some _ =>
          if truthyOpt si.sessionId = false then
            match l with
            | Line.record d =>
              { si with
                sessionId := some (dget d (s2l "sessionId") (pstr ""))
                cwd := some (dget d (s2l "cwd") (pstr ""))
                version := some (dget d (s2l "version") (pstr "")) }
            | Line.bad => si
          else si
        | none => si := by
  cases l with
  | bad => rfl
  | record d =>
    simp only [upd, summaryOf, emitMsg]
    by_cases h1 : pyEqS (dget d (s2l "type") PyVal.null) (s2l "summary") = true
    · simp [h1]
    · simp only [h1, if_false, Bool.false_eq_true]
      by_cases h2 : pyEqS (dget d (s2l "type") PyVal.null) (s2l "file-history-snapshot") = true
      · simp [h2]
      · simp only [h2, if_false, Bool.false_eq_true]
        rcases hm : dget d (s2l "message") (PyVal.dict []) with _ | b | n | s | xs | md
        · simp
        · simp
        · simp
        · simp
        · simp
        · by_cases ht : pyTruthy (PyVal.dict md) = false
          · simp [ht]
          · simp only [ht, if_false]
            by_cases hr :
                (pyEqS (dget md (s2l "role") (dget d (s2l "type") (pstr ""))) (s2l "user")
                  || pyEqS (dget md (s2l "role") (dget d (s2l "type") (pstr "")))
                    (s2l "assistant")) = true
            · by_cases hs : truthyOpt si.sessionId = false <;> simp [hr, hs, ht]
            · simp [hr, ht]

theorem upd_summary (l : Line) (si : SessionInfo) :
    (upd si l).summary =
      match summaryOf l with
      | some v => some v
      | none => si.summary := by
  rw [upd_eq]
  cases hs : summaryOf l with
  | some v => simp
  | none =>
    cases hem : emitMsg l with
    | none => simp
    | some m =>
      cases l with
      | bad => simp
      | record d => by_cases hsid : truthyOpt si.sessionId = false <;> simp [hsid]

theorem lastOf_cons_cons (x y : α) (ys : List α) :
    lastOf (x :: y :: ys) = lastOf (y :: ys) := rfl

theorem lastOf_cons_ne_none (y : α) (ys : List α) : lastOf (y :: ys) ≠ none := by
  induction ys generalizing y with
  | nil => simp [lastOf]
  | cons z zs ih => rw [lastOf_cons_cons]; exact ih z

theorem foldl_upd_summary (ls : List Line) :
    ∀ si : SessionInfo,
      (ls.foldl upd si).summary =
        match lastOf (ls.filterMap summaryOf) with
        | some v => some v
        | none => si.summary := by
  induction ls with
  | nil => intro si; rfl
  | cons l rest ih =>
    intro si
    rw [List.foldl_cons, ih]
    cases hs : summaryOf l with
    | none =>
      have h1 : (upd si l).summary = si.summary := by rw [upd_summary, hs]
      simp [List.filterMap_cons, hs, h1]
    | some v =>
      have h1 : (upd si l).summary = some v := by rw [upd_summary, hs]
      cases hfm : rest.filterMap summaryOf with
      | nil => simp [List.filterMap_cons, hs, hfm, lastOf, h1]
      | cons w ws =>
        simp only [List.filterMap_cons, hs, hfm, lastOf_cons_cons]
        cases hlast : lastOf (w :: ws) with
        | some u => simp
        | none => exact absurd hlast (lastOf_cons_ne_none w ws)

theorem upd_meta_of_emit_none (l : Line) (si : SessionInfo) (h : emitMsg l = none) :
    (upd si l).sessionId = si.sessionId ∧ (upd si l).cwd = si.cwd
      ∧ (upd si l).version = si.version := by
  rw [upd_eq]
  cases hs : summaryOf l with
  | some v => simp
  | none => simp [h]

theorem upd_meta_of_truthy (l : Line) (si : SessionInfo) (h : truthyOpt si.sessionId = true) :
    (upd si l).sessionId = si.sessionId ∧ (upd si l).cwd = si.cwd
      ∧ (upd si l).version = si.version := by
  rw [upd_eq]
  cases hs : summaryOf l with
  | some v => simp
  | none =>
    cases hem : emitMsg l with
    | none => simp
    | some m => simp [h]

theorem upd_capture (d : List (List Char × PyVal)) (si : SessionInfo) (m : Msg)
    (hem : emitMsg (Line.record d) = some m) (hs : truthyOpt si.sessionId = false) :
    (upd si (Line.record d)).sessionId = some (dget d (s2l "sessionId") (pstr ""))
    ∧ (upd si (Line.record d)).cwd = some (dget d (s2l "cwd") (pstr ""))
    ∧ (upd si (Line.record d)).version = some (dget d (s2l "version") (pstr "")) := by
  have hso : summaryOf (Line.record d) = none := by
    cases hq : summaryOf (Line.record d) with
    | none => rfl
    | some v =>
      rw [emitMsg_of_summaryOf _ _ hq] at hem
      exact absurd hem (by simp)
  rw [upd_eq, hso, hem, if_pos hs]
  exact ⟨rfl, rfl, rfl⟩

theorem foldl_upd_meta_none (ls : List Line) (h : ∀ l ∈ ls, emitMsg l = none) :
    ∀ si : SessionInfo,
      (ls.foldl upd si).sessionId = si.sessionId ∧ (ls.foldl upd si).cwd = si.cwd
        ∧ (ls.foldl upd si).version = si.version := by
  induction ls with
  | nil => intro si; exact ⟨rfl, rfl, rfl⟩
  | cons l rest ih =>
    intro si
    have h1 := upd_meta_of_emit_none l si (h l (List.mem_cons_self l rest))
    have ih1 := ih (fun x hx => h x (List.mem_cons_of_mem l hx)) (upd si l)
    rw [List.foldl_cons]
    exact ⟨ih1.1.trans h1.1, ih1.2.1.trans h1.2.1, ih1.2.2.trans h1.2.2⟩

theorem foldl_upd_meta_truthy (ls : List Line) :
    ∀ si : SessionInfo, truthyOpt si.sessionId = true →
      (ls.foldl upd si).sessionId = si.sessionId ∧ (ls.foldl upd si).cwd = si.cwd
        ∧ (ls.foldl upd si).version = si.version := by
  induction ls with
  | nil => intro si _; exact ⟨rfl, rfl, rfl⟩
  | cons l rest ih =>
    intro si h
    have h1 := upd_meta_of_truthy l si h
    have h2 : truthyOpt (upd si l).sessionId = true := by rw [h1.1]; exact h
    have ih1 := ih (upd si l) h2
    rw [List.foldl_cons]
    exact ⟨ih1.1.trans h1.1, ih1.2.1.trans h1.2.1, ih1.2.2.trans h1.2.2⟩

theorem emitMsg_isSome_eq (l : Line) (h : lineRaises l = false) :
    (emitMsg l).isSome = messageRecord l := by
  cases l with
  | bad => rfl
  | record d =>
    simp only [emitMsg, messageRecord, specResolvedRole]
    simp only [lineRaises] at h
    revert h
    generalize dget d (s2l "message") (PyVal.dict []) = mv
    intro h
    by_cases h1 : pyEqS (dget d (s2l "type") PyVal.null) (s2l "summary") = true
    · cases mv <;> simp [h1]
    · rw [if_neg h1] at h
      by_cases h2 : pyEqS (dget d (s2l "type") PyVal.null) (s2l "file-history-snapshot") = true
      · cases mv <;> simp [h1, h2]
      · rw [if_neg h2] at h
        cases mv with
        | null => simp [h1, h2, pyTruthy]
        | bool b =>
          simp only [pyTruthy] at h
          simp [h1, h2, pyTruthy, h]
        | int n =>
          simp only [pyTruthy] at h
          simp [h1, h2, pyTruthy, h]
        | str s =>
          simp only [pyTruthy] at h
          simp [h1, h2, pyTruthy, h]
        | list xs =>
          simp only [pyTruthy] at h
          simp [h1, h2, pyTruthy, h]
        | dict md =>
          by_cases ht : pyTruthy (PyVal.dict md) = false
          · simp [h1, h2, ht]
          · have ht2 : pyTruthy (PyVal.dict md) = true := by
              cases hq : pyTruthy (PyVal.dict md)
              · exact absurd hq ht
              · rfl
            by_cases hr :
                (pyEqS (dget md (s2l "role") (dget d (s2l "type") (pstr ""))) (s2l "user")
                  || pyEqS (dget md (s2l "role") (dget d (s2l "type") (pstr "")))
                    (s2l "assistant")) = true
            · simp [h1, h2, hr, ht2]
            · simp [h1, h2, hr, ht2]

theorem length_filterMap_eq_countP (f : α → Option β) (l : List α) :
    (l.filterMap f).length = l.countP (fun a => (f a).isSome) := by
  induction l with
  | nil => rfl
  | cons a l ih =>
    cases hf : f a <;> simp [List.filterMap_cons, hf, List.countP_cons, ih]

theorem countP_congr_on (l : List α) (p q : α → Bool) (h : ∀ a ∈ l, p a = q a) :
    l.countP p = l.countP q := by
  induction l with
  | nil => rfl
  | cons a l ih =>
    have ha := h a (List.mem_cons_self a l)
    have ih1 := ih (fun x hx => h x (List.mem_cons_of_mem a hx))
    simp [List.countP_cons, ha, ih1]

theorem parse_ok_elim (lines : List Line) (msgs : List Msg) (info : SessionInfo)
    (h : parse_session lines = Except.ok (msgs, info)) :
    msgs = lines.filterMap emitMsg ∧ info = lines.foldl upd {}
      ∧ ∀ l ∈ lines, lineRaises l = false := by
  unfold parse_session at h
  rw [parseFrom_closed] at h
  by_cases hc : lines.all (fun l => !lineRaises l) = true
  · rw [if_pos hc, List.nil_append] at h
    injection h with h
    injection h with ha hb
    refine ⟨ha.symm, hb.symm, fun l hl => ?_⟩
    have := List.all_eq_true.mp hc l hl
    simpa using this
  · rw [if_neg hc] at h
    exact absurd h (by simp)

/-!
## Claims about the normalizer
-/

/-- C5 (confirmed): a line of invalid JSON is silently dropped — normalization
of a transcript containing a malformed line produces exactly the Messages and
SessionMetadata of the same transcript with the malformed line removed, and in
particular it does not raise and still processes every surrounding valid line. -/
theorem C5_malformed_line_skipped (xs ys : List Line) :
    parse_session (xs ++ Line.bad :: ys) = parse_session (xs ++ ys) := by
  unfold parse_session
  rw [parseFrom_closed, parseFrom_closed]
  have h1 : lineRaises Line.bad = false := rfl
  have h2 : emitMsg Line.bad = none := rfl
  have h3 : ∀ si : SessionInfo, upd si Line.bad = si := fun _ => rfl
  simp [List.all_append, List.filterMap_append, List.foldl_append, h1, h2, h3]

/-- C1 (amended): when `parse_session` succeeds, the captured `summaryText`
equals the summary value of the LAST record of type `summary` in line order
(each summary record overwrites the previous value — last-wins, not
first-wins), the Messages are exactly the per-record emissions (so a summary
record, for which `emitMsg` is `none`, produces no Message). -/
theorem C1_summary_last_wins (lines : List Line) (msgs : List Msg) (info : SessionInfo)
    (h : parse_session lines = Except.ok (msgs, info)) :
    info.summary = lastSummaryText lines
    ∧ msgs = lines.filterMap emitMsg
    ∧ (∀ (l : Line) (v : PyVal), summaryOf l = some v → emitMsg l = none) := by
  obtain ⟨hm, hi, _⟩ := parse_ok_elim lines msgs info h
  refine ⟨?_, hm, fun l v hv => emitMsg_of_summaryOf l v hv⟩
  rw [hi, foldl_upd_summary, lastSummaryText]
  cases lastOf (lines.filterMap summaryOf) <;> rfl

/-- C1 counterexample: a transcript with two summary records (`"a"` then
`"b"`) yields summaryText `"b"`, the value of the LAST summary record, not of
the first as the claim states. -/
theorem C1_counterexample :
    parse_session
        [Line.record [(s2l "type", pstr "summary"), (s2l "summary", pstr "a")],
         Line.record [(s2l "type", pstr "summary"), (s2l "summary", pstr "b")]]
      = Except.ok ([], { summary := some (pstr "b") })
    ∧ pstr "b" ≠ pstr "a" := by
  refine ⟨rfl, fun hq => ?_⟩
  simp only [pstr] at hq
  injection hq with hq2
  exact absurd hq2 (by decide)

/-- Witness for C1: on the two-summary transcript, the captured summaryText
equals the last summary record's value. -/
theorem C1_witness :
    (some (pstr "b") : Option PyVal) =
      lastSummaryText
        [Line.record [(s2l "type", pstr "summary"), (s2l "summary", pstr "a")],
         Line.record [(s2l "type", pstr "summary"), (s2l "summary", pstr "b")]] :=
  (C1_summary_last_wins
    [Line.record [(s2l "type", pstr "summary"), (s2l "summary", pstr "a")],
     Line.record [(s2l "type", pstr "summary"), (s2l "summary", pstr "b")]]
    [] { summary := some (pstr "b") } rfl).1

/-- C4 counterexample: the transcript `[{"type":"user"}]` is well formed and
its single record's resolved role (`message.role` falling back to `type`) is
`user`, yet normalization emits no Message — the count of resolved-role
records is 1 while the Message list is empty. -/
theorem C4_counterexample :
    parse_session [Line.record [(s2l "type", pstr "user")]]
        = Except.ok ([], ({} : SessionInfo))
    ∧ List.countP roleCounted [Line.record [(s2l "type", pstr "user")]] = 1
    ∧ (0 : Nat) ≠ List.countP roleCounted [Line.record [(s2l "type", pstr "user")]] :=
  ⟨rfl, rfl, by decide⟩

/-- C4 (amended): when `parse_session` succeeds, the Messages are exactly the
per-record emissions in physical line order (no reordering, sorting, or
deduplication), and their number equals the number of records that carry a
truthy `message` value, are neither `summary` nor `file-history-snapshot`
records, and whose resolved role is `user` or `assistant`. -/
theorem C4_message_count_order (lines : List Line) (msgs : List Msg) (info : SessionInfo)
    (h : parse_session lines = Except.ok (msgs, info)) :
    msgs = lines.filterMap emitMsg
    ∧ msgs.length = lines.countP messageRecord := by
  obtain ⟨hm, _, hall⟩ := parse_ok_elim lines msgs info h
  refine ⟨hm, ?_⟩
  rw [hm, length_filterMap_eq_countP]
  exact countP_congr_on lines _ _ (fun l hl => emitMsg_isSome_eq l (hall l hl))

/-- Example message for the C4 witness: role `user`, content `hi`, with
defaulted timestamp and uuid. -/
def c4msg : Msg := ⟨pstr "user", pstr "hi", pstr "", pstr ""⟩

/-- Example transcript for the C4 witness: one user-message record followed by
a malformed line. -/
def c4lines : List Line :=
  [Line.record [(s2l "message",
      PyVal.dict [(s2l "role", pstr "user"), (s2l "content", pstr "hi")])],
   Line.bad]

/-- Witness for C4 on a transcript with one user message and one malformed
line. -/
theorem C4_witness :
    [c4msg] = c4lines.filterMap emitMsg
    ∧ [c4msg].length = c4lines.countP messageRecord :=
  C4_message_count_order c4lines [c4msg]
    ⟨none, some (pstr ""), some (pstr ""), some (pstr "")⟩ rfl

/-- C3 (confirmed): if the record carrying the first emitted Message has a
non-empty (truthy) `sessionId`, then the final SessionMetadata's `sessionId`,
`cwd` and `version` equal that record's values, whatever the later records of
the transcript carry — first-wins, not last-wins. -/
theorem C3_metadata_first_wins (as : List Line) (d0 : List (List Char × PyVal))
    (bs : List Line) (msgs : List Msg) (info : SessionInfo) (m : Msg)
    (has : ∀ l ∈ as, emitMsg l = none)
    (hem : emitMsg (Line.record d0) = some m)
    (hsid : pyTruthy (dget d0 (s2l "sessionId") (pstr "")) = true)
    (h : parse_session (as ++ Line.record d0 :: bs) = Except.ok (msgs, info)) :
    info.sessionId = some (dget d0 (s2l "sessionId") (pstr ""))
    ∧ info.cwd = some (dget d0 (s2l "cwd") (pstr ""))
    ∧ info.version = some (dget d0 (s2l "version") (pstr "")) := by
  obtain ⟨_, hi, _⟩ := parse_ok_elim _ _ _ h
  rw [List.foldl_append, List.foldl_cons] at hi
  have hs1 : truthyOpt (as.foldl upd ({} : SessionInfo)).sessionId = false := by
    rw [(foldl_upd_meta_none as has ({} : SessionInfo)).1]; rfl
  have hcap := upd_capture d0 (as.foldl upd ({} : SessionInfo)) m hem hs1
  have hs2 : truthyOpt (upd (as.foldl upd ({} : SessionInfo)) (Line.record d0)).sessionId
      = true := by
    rw [hcap.1]; simpa [truthyOpt] using hsid
  have hmeta2 := foldl_upd_meta_truthy bs _ hs2
  rw [hi]
  exact ⟨hmeta2.1.trans hcap.1, hmeta2.2.1.trans hcap.2.1, hmeta2.2.2.trans hcap.2.2⟩

/-- The first message-bearing record for the C3 witness: sessionId `S1`,
cwd `/w`, version `1`, and a user message. -/
def c3rec : List (List Char × PyVal) :=
  [(s2l "sessionId", pstr "S1"), (s2l "cwd", pstr "/w"), (s2l "version", pstr "1"),
   (s2l "message", PyVal.dict [(s2l "role", pstr "user"), (s2l "content", pstr "hi")])]

/-- A later message-bearing record for the C3 witness, carrying DIFFERENT
metadata (sessionId `S2`, cwd `/x`, version `2`). -/
def c3later : Line :=
  Line.record
    [(s2l "sessionId", pstr "S2"), (s2l "cwd", pstr "/x"), (s2l "version", pstr "2"),
     (s2l "message", PyVal.dict [(s2l "role", pstr "assistant"), (s2l "content", pstr "yo")])]

/-- Witness for C3: the first message record carries sessionId `S1`; a later
message record carries different metadata (`S2`, other cwd and version); the
captured metadata is that of the first record. -/
theorem C3_witness :
    (⟨none, some (pstr "S1"), some (pstr "/w"), some (pstr "1")⟩ : SessionInfo).sessionId
        = some (dget c3rec (s2l "sessionId") (pstr ""))
    ∧ (⟨none, some (pstr "S1"), some (pstr "/w"), some (pstr "1")⟩ : SessionInfo).cwd
        = some (dget c3rec (s2l "cwd") (pstr ""))
    ∧ (⟨none, some (pstr "S1"), some (pstr "/w"), some (pstr "1")⟩ : SessionInfo).version
        = some (dget c3rec (s2l "version") (pstr "")) :=
  C3_metadata_first_wins [] c3rec [c3later]
    [⟨pstr "user", pstr "hi", pstr "", pstr ""⟩,
     ⟨pstr "assistant", pstr "yo", pstr "", pstr ""⟩]
    ⟨none, some (pstr "S1"), some (pstr "/w"), some (pstr "1")⟩
    ⟨pstr "user", pstr "hi", pstr "", pstr ""⟩
    (fun l hl => absurd hl (List.not_mem_nil l))
    rfl
    rfl
    rfl

/-!
## String helpers: `html.escape`, `str()`, `repr()`, `json.dumps(..., indent=2)`
-/

/-- Apply a per-character expansion over a string. -/
def escMany (f : Char → List Char) : List Char → List Char
  | [] => []
  | c :: cs => f c ++ escMany f cs

/-- `html.escape` (quote=True) on one character. -/
def escChar (c : Char) : List Char :=
  if c = '&' then s2l "&amp;"
  else if c = '<' then s2l "&lt;"
  else if c = '>' then s2l "&gt;"
  else if c = '"' then s2l "&quot;"
  else if c = sq then s2l "&#x27;"
  else [c]

/-- `html.escape(s, quote=True)`. -/
def esc (s : List Char) : List Char := escMany escChar s

/-- Replace newlines by `<br>` (`text.replace('\n', '<br>')`). -/
def nl2br (s : List Char) : List Char :=
  escMany (fun c => if c = '\n' then s2l "<br>" else [c]) s

/-- Decimal digit character. -/
def digitChar (d : Nat) : Char := Char.ofNat (48 + d)

/-- Decimal digits of a natural number. -/
def natDigs (n : Nat) : List Char :=
  if _h : n < 10 then [digitChar n]
  else natDigs (n / 10) ++ [digitChar (n % 10)]
decreasing_by exact Nat.div_lt_self (by omega) (by omega)

/-- Decimal rendering of a Python int. -/
def intStr (n : Int) : List Char :=
  if n < 0 then '-' :: natDigs n.natAbs else natDigs n.toNat

/-- Lowercase hex digit. -/
def hexDig (d : Nat) : Char :=
  if d < 10 then Char.ofNat (48 + d) else Char.ofNat (87 + d)

/-- Four lowercase hex digits (for `\uXXXX` escapes). -/
def hex4 (n : Nat) : List Char :=
  [hexDig (n / 4096 % 16), hexDig (n / 256 % 16), hexDig (n / 16 % 16), hexDig (n % 16)]

/-- JSON string escaping of one character, as `json.dumps` with the default
`ensure_ascii=True` does it: the short escapes, `\u00XX` for other control
characters, and `\uXXXX` (with surrogate pairs beyond the BMP) for non-ASCII. -/
def jsonEscChar (c : Char) : List Char :=
  if c = '"' then ['\\', '"']
  else if c = '\\' then ['\\', '\\']
  else if c = '\n' then ['\\', 'n']
  else if c = '\t' then ['\\', 't']
  else if c = '\r' then ['\\', 'r']
  else if c.toNat = 8 then ['\\', 'b']
  else if c.toNat = 12 then ['\\', 'f']
  else if c.toNat < 32 || 126 < c.toNat then
    if c.toNat < 65536 then '\\' :: 'u' :: hex4 c.toNat
    else
      ('\\' :: 'u' :: hex4 (55296 + (c.toNat - 65536) / 1024))
        ++ ('\\' :: 'u' :: hex4 (56320 + (c.toNat - 65536) % 1024))
  else [c]

/-- JSON escaping of a whole string body. -/
def jsonEscStr (s : List Char) : List Char := escMany jsonEscChar s

/-- Two-space indentation at a nesting level. -/
def spaces (n : Nat) : List Char := List.replicate n ' '

mutual

/-- `json.dumps(v, indent=2)` at a given nesting level (Python's format:
each container opens on its own line, items indented two more spaces,
separators `,` + newline and `: `). -/
def dumpsAux : PyVal → Nat → List Char
  | PyVal.null, _ => s2l "null"
  | PyVal.bool true, _ => s2l "true"
  | PyVal.bool false, _ => s2l "false"
  | PyVal.int n, _ => intStr n
  | PyVal.str s, _ => '"' :: (jsonEscStr s ++ ['"'])
  | PyVal.list [], _ => s2l "[]"
  | PyVal.list (x :: xs), lvl =>
    '[' :: '\n' :: (dumpsItems x xs (lvl + 1) ++ '\n' :: (spaces (2 * lvl) ++ [']']))
  | PyVal.dict [], _ => [lbrace, rbrace]
  | PyVal.dict (p :: ps), lvl =>
    lbrace :: '\n' :: (dumpsPairs p ps (lvl + 1) ++ '\n' :: (spaces (2 * lvl) ++ [rbrace]))
termination_by v _ => sizeOf v

/-- The comma-newline separated items of a JSON array. -/
def dumpsItems : PyVal → List PyVal → Nat → List Char
  | x, [], lvl => spaces (2 * lvl) ++ dumpsAux x lvl
  | x, y :: ys, lvl =>
    spaces (2 * lvl) ++ dumpsAux x lvl ++ ',' :: '\n' :: dumpsItems y ys lvl
termination_by x xs _ => sizeOf x + sizeOf xs

/-- The comma-newline separated pairs of a JSON object. -/
def dumpsPairs : (List Char × PyVal) → List (List Char × PyVal) → Nat → List Char
  | (k, v), [], lvl =>
    spaces (2 * lvl) ++ ('"' :: (jsonEscStr k ++ '"' :: ':' :: ' ' :: dumpsAux v lvl))
  | (k, v), p :: ps, lvl =>
    spaces (2 * lvl) ++ ('"' :: (jsonEscStr k ++ '"' :: ':' :: ' ' :: dumpsAux v lvl))
      ++ ',' :: '\n' :: dumpsPairs p ps lvl
termination_by p ps _ => sizeOf p + sizeOf ps

end

/-- `json.dumps(v, indent=2)`. -/
def dumps (v : PyVal) : List Char := dumpsAux v 0

/-- One character of Python `repr` of a string (approximated: backslash,
quote and the common control characters are escaped; Python always gets a
single-quoted result here). -/
def reprEscChar (c : Char) : List Char :=
  if c = '\\' then ['\\', '\\']
  else if c = sq then ['\\', sq]
  else if c = '\n' then ['\\', 'n']
  else if c = '\t' then ['\\', 't']
  else if c = '\r' then ['\\', 'r']
  else [c]

/-- Body escaping for Python `repr` of a string. -/
def reprEsc (s : List Char) : List Char := escMany reprEscChar s

mutual

/-- Python `repr(v)` for the modeled values. -/
def pyRepr : PyVal → List Char
  | PyVal.null => s2l "None"
  | PyVal.bool true => s2l "True"
  | PyVal.bool false => s2l "False"
  | PyVal.int n => intStr n
  | PyVal.str s => sq :: (reprEsc s ++ [sq])
  | PyVal.list [] => s2l "[]"
  | PyVal.list (x :: xs) => '[' :: (pyReprItems x xs ++ [']'])
  | PyVal.dict [] => [lbrace, rbrace]
  | PyVal.dict (p :: ps) => lbrace :: (pyReprPairs p ps ++ [rbrace])
termination_by v => sizeOf v

/-- Comma-space separated `repr`s of list items. -/
def pyReprItems : PyVal → List PyVal → List Char
  | x, [] => pyRepr x
  | x, y :: ys => pyRepr x ++ ',' :: ' ' :: pyReprItems y ys
termination_by x xs => sizeOf x + sizeOf xs

/-- Comma-space separated `repr`s of dict pairs. -/
def pyReprPairs : (List Char × PyVal) → List (List Char × PyVal) → List Char
  | (k, v), [] => (sq :: (reprEsc k ++ [sq])) ++ ':' :: ' ' :: pyRepr v
  | (k, v), p :: ps =>
    (sq :: (reprEsc k ++ [sq])) ++ ':' :: ' ' :: pyRepr v ++ ',' :: ' ' :: pyReprPairs p ps
termination_by p ps => sizeOf p + sizeOf ps

end

/-- Python `str(v)`: identity on strings, `repr` otherwise (which agrees with
`str` on ints, bools, `None`, lists and dicts). -/
def pyStr : PyVal → List Char
  | PyVal.str s => s
  | v => pyRepr v

/-!
## The two regex substitutions of the Text branch

`re.sub(r'```(\w*)\n(.*?)```', r'<pre><code class="\1">\2</code></pre>', text,
flags=re.DOTALL)` followed by
`re.sub(r'`([^`]+)`', r'<code>\1</code>', text)`, modeled as left-to-right
scans that at each position try the pattern and on failure move one character
forward, exactly as the regex engine does.
-/

/-- A regex word character `\w` (ASCII approximation of Python's default). -/
def isWordChar (c : Char) : Bool := c.isAlphanum || c = '_'

/-- Find the earliest occurrence of a triple backtick: returns the segment
before it and the remainder after it. -/
def findTriple : List Char → Option (List Char × List Char)
  | c1 :: c2 :: c3 :: rest =>
    if c1 = bt && c2 = bt && c3 = bt then some ([], rest)
    else
      match findTriple (c2 :: c3 :: rest) with
      | some (pre, post) => some (c1 :: pre, post)
      | none => none
  | _ => none

/-- Try to match the fenced-code-block pattern at the current position:
three backticks, a greedy run of word characters (the language tag), a
newline, then the shortest body up to the next triple backtick.  On success,
return the replacement text and the remaining input. -/
def tryCodeBlock : List Char → Option (List Char × List Char)
  | c1 :: c2 :: c3 :: rest =>
    if c1 = bt && c2 = bt && c3 = bt then
      let lang := rest.takeWhile isWordChar
      match rest.dropWhile isWordChar with
      | nlc :: body0 =>
        if nlc = '\n' then
          match findTriple body0 with
          | some (body, after) =>
            some (s2l "<pre><code class=\"" ++ lang ++ s2l "\">" ++ body
              ++ s2l "</code></pre>", after)
          | none => none
        else none
      | [] => none
    else none
  | _ => none

/-- The fenced-code-block substitution pass (fuel-driven left-to-right scan;
the fuel bounds the number of input characters consumed and is initialized
to the input length). -/
def codeSub : Nat → List Char → List Char
  | 0, cs => cs
  | _ + 1, [] => []
  | fuel + 1, c :: cs =>
    match tryCodeBlock (c :: cs) with
    | some (rep, rem) => rep ++ codeSub fuel rem
    | none => c :: codeSub fuel cs

/-- Try to match the inline-code pattern at the current position: a backtick,
at least one non-backtick character, and a closing backtick. -/
def tryInline : List Char → Option (List Char × List Char)
  | c :: rest =>
    if c = bt then
      let body := rest.takeWhile (fun x => !(x = bt : Bool))
      if body.isEmpty then none
      else
        match rest.dropWhile (fun x => !(x = bt : Bool)) with
        | b :: after =>
          if b = bt then some (s2l "<code>" ++ body ++ s2l "</code>", after) else none
        | [] => none
    else none
  | [] => none

/-- The inline-code substitution pass. -/
def inlineSub : Nat → List Char → List Char
  | 0, cs => cs
  | _ + 1, [] => []
  | fuel + 1, c :: cs =>
    match tryInline (c :: cs) with
    | some (rep, rem) => rep ++ inlineSub fuel rem
    | none => c :: inlineSub fuel cs

/-!
## `render_message_content` (source lines 568-654)
-/

/-- The truncation marker appended by the thinking and tool-result branches. -/
def truncMarker : List Char := s2l "... (truncated)"

/-- The thinking branch's displayed body (source lines 598-600): the HTML
escape of the text, cut to its first 1000 characters, the marker appended when
the ORIGINAL text is longer than 1000 characters. -/
def renderThinkingBody (s : List Char) : List Char :=
  (esc s).take 1000 ++ (if 1000 < s.length then truncMarker else [])

/-- The formatted fragment of a Text block (source lines 581-595): escape,
fenced-code substitution, inline-code substitution, newlines to `<br>`. -/
def textFragment (tx : List Char) : List Char :=
  s2l "<div class=\"text-content\">"
    ++ nl2br (inlineSub (codeSub (esc tx).length (esc tx)).length
        (codeSub (esc tx).length (esc tx)))
    ++ s2l "</div>"

/-- The collapsible thinking fragment (source lines 601-608), reproducing the
f-string's exact whitespace; its wrapping div carries class
`message thinking` (without `expanded`), which the page style renders
collapsed by default. -/
def thinkFragment (body : List Char) : List Char :=
  '\n' :: (spaces 24 ++ s2l "<div class=\"message thinking\">"
    ++ '\n' :: (spaces 28 ++ s2l "<div class=\"message-header\">"
    ++ '\n' :: (spaces 32 ++ s2l "<span>💭 Thinking (click to expand)</span>"
    ++ '\n' :: (spaces 28 ++ s2l "</div>"
    ++ '\n' :: (spaces 28 ++ s2l "<div class=\"message-content\">" ++ body ++ s2l "</div>"
    ++ '\n' :: (spaces 24 ++ s2l "</div>"
    ++ '\n' :: spaces 20))))))

/-- The tool-call fragment (source lines 636-641). -/
def toolFragment (nm body : List Char) : List Char :=
  '\n' :: (spaces 24 ++ s2l "<div class=\"tool-call\">"
    ++ '\n' :: (spaces 28 ++ s2l "<div class=\"tool-call-header\">🔧 " ++ nm ++ s2l "</div>"
    ++ '\n' :: (spaces 28 ++ s2l "<div class=\"tool-call-content\">" ++ body ++ s2l "</div>"
    ++ '\n' :: (spaces 24 ++ s2l "</div>"
    ++ '\n' :: spaces 20))))

/-- The tool-result fragment (source lines 647-652). -/
def toolResultFragment (body : List Char) : List Char :=
  '\n' :: (spaces 24 ++ s2l "<div class=\"tool-call\">"
    ++ '\n' :: (spaces 28 ++ s2l "<div class=\"tool-call-header\">📤 Tool Result</div>"
    ++ '\n' :: (spaces 28 ++ s2l "<div class=\"tool-call-content\">" ++ body ++ s2l "</div>"
    ++ '\n' :: (spaces 24 ++ s2l "</div>"
    ++ '\n' :: spaces 20))))

/-- The `(empty message)` placeholder (source line 654). -/
def emptyMsgHtml : List Char := s2l "<div class=\"text-content\">(empty message)</div>"

/-- The Bash tool display (source lines 615-620): `$ <command>`, prefixed by
`# <description>` on its own line when the description is truthy. -/
def bashDisplay (di : List (List Char × PyVal)) : List Char :=
  if pyTruthy (dget di (s2l "description") (pstr "")) then
    s2l "# " ++ pyStr (dget di (s2l "description") (pstr ""))
      ++ s2l "\n$ " ++ pyStr (dget di (s2l "command") (pstr ""))
  else s2l "$ " ++ pyStr (dget di (s2l "command") (pstr ""))

/-- The tool-specific display text (source lines 614-634).  In the branches
for the known tools, `tool_input.get` raises (`Except.error`) when the
`input` value is not a dict; the fallback branch serializes any input as
indented JSON cut to 500 characters with no marker. -/
def toolDisplay (nm : List Char) (input : PyVal) : Except Unit (List Char) :=
  if nm = s2l "Bash" then
    match input with
    | PyVal.dict di => Except.ok (bashDisplay di)
    | _ => Except.error ()
  else if nm = s2l "Read" then
    match input with
    | PyVal.dict di => Except.ok (s2l "Reading: " ++ pyStr (dget di (s2l "file_path") (pstr "")))
    | _ => Except.error ()
  else if nm = s2l "Write" then
    match input with
    | PyVal.dict di =>
      Except.ok (s2l "Writing to: " ++ pyStr (dget di (s2l "file_path") (pstr "")))
    | _ => Except.error ()
  else if nm = s2l "Edit" then
    match input with
    | PyVal.dict di => Except.ok (s2l "Editing: " ++ pyStr (dget di (s2l "file_path") (pstr "")))
    | _ => Except.error ()
  else if nm = s2l "Grep" || nm = s2l "Glob" then
    match input with
    | PyVal.dict di =>
      Except.ok (s2l "Pattern: " ++ pyStr (dget di (s2l "pattern") (pstr ""))
        ++ s2l "\nPath: " ++ pyStr (dget di (s2l "path") (pstr ".")))
    | _ => Except.error ()
  else if nm = s2l "Task" then
    match input with
    | PyVal.dict di =>
      Except.ok (s2l "Agent: " ++ pyStr (dget di (s2l "subagent_type") (pstr "unknown"))
        ++ s2l "\nTask: " ++ pyStr (dget di (s2l "description") (pstr "")))
    | _ => Except.error ()
  else Except.ok ((dumps input).take 500)

/-- The formatted fragment of one list item (the body of the `for` loop of
`render_message_content`, source lines 577-652): a dict is dispatched on its
`type` (unknown types contribute nothing), any non-dict item — including a
bare string — contributes nothing.  `Except.error` models the places where
Python would raise: `escape()` on a non-string field, or `.get` on a
non-dict `input` in a known-tool branch. -/
def renderItem : PyVal → Except Unit (Option (List Char))
  | PyVal.dict d =>
    if pyEqS (dget d (s2l "type") (pstr "")) (s2l "text") then
      match dget d (s2l "text") (pstr "") with
      | PyVal.str tx => Except.ok (some (textFragment tx))
      | _ => Except.error ()
    else if pyEqS (dget d (s2l "type") (pstr "")) (s2l "thinking") then
      match dget d (s2l "thinking") (pstr "") with
      | PyVal.str th => Except.ok (some (thinkFragment (renderThinkingBody th)))
      | _ => Except.error ()
    else if pyEqS (dget d (s2l "type") (pstr "")) (s2l "tool_use") then
      match dget d (s2l "name") (pstr "Unknown") with
      | PyVal.str nm0 =>
        match toolDisplay (esc nm0) (dget d (s2l "input") (PyVal.dict [])) with
        | Except.ok disp => Except.ok (some (toolFragment (esc nm0) (esc disp)))
        | Except.error e => Except.error e
      | _ => Except.error ()
    else if pyEqS (dget d (s2l "type") (pstr "")) (s2l "tool_result") then
      Except.ok (some (toolResultFragment (esc
        ((pyStr (dget d (s2l "content") (pstr ""))).take 1000
          ++ (if 1000 < (pyStr (dget d (s2l "content") (pstr ""))).length then truncMarker
              else [])))))
    else Except.ok none
  | _ => Except.ok none

/-- The loop of `render_message_content` over a block list, accumulating the
`html_parts` fragments in order. -/
def renderLoop : List PyVal → Except Unit (List (List Char))
  | [] => Except.ok []
  | i :: is =>
    match renderItem i with
    | Except.error e => Except.error e
    | Except.ok f =>
      match renderLoop is with
      | Except.error e => Except.error e
      | Except.ok fs => Except.ok (f.toList ++ fs)

/-- `'\n'.join` on already-string fragments. -/
def joinNL : List (List Char) → List Char
  | [] => []
  | [x] => x
  | x :: y :: ys => x ++ '\n' :: joinNL (y :: ys)

/-- `render_message_content(content)` (source lines 568-654): a string
becomes a single escaped text unit with explicit line breaks; a list maps
each block to at most one fragment; anything else produces no fragment, and
an empty fragment list yields the `(empty message)` placeholder. -/
def render_message_content : PyVal → Except Unit (List Char)
  | PyVal.str s =>
    Except.ok (s2l "<div class=\"text-content\">" ++ nl2br (esc s) ++ s2l "</div>")
  | PyVal.list items =>
    match renderLoop items with
    | Except.ok parts => Except.ok (if parts.isEmpty then emptyMsgHtml else joinNL parts)
    | Except.error e => Except.error e
  | _ => Except.ok emptyMsgHtml

/-!
## `extract_text_content` (source lines 546-565)
-/

/-- The entries one list item appends to `texts` (the body of the `for` loop
of `extract_text_content`): the raw `text` field of a Text block (appended
unchecked — a non-string only fails later, at the join), the f-string
wrappings for Thinking and ToolUse blocks, a bare string verbatim, nothing
for any other item. -/
def itemTexts : PyVal → List PyVal
  | PyVal.dict d =>
    if pyEqS (dget d (s2l "type") PyVal.null) (s2l "text") then
      [dget d (s2l "text") (pstr "")]
    else if pyEqS (dget d (s2l "type") PyVal.null) (s2l "thinking") then
      [PyVal.str (s2l "[THINKING]\n" ++ pyStr (dget d (s2l "thinking") (pstr ""))
        ++ s2l "\n[/THINKING]")]
    else if pyEqS (dget d (s2l "type") PyVal.null) (s2l "tool_use") then
      [PyVal.str (s2l "[TOOL: " ++ pyStr (dget d (s2l "name") (pstr "Unknown")) ++ s2l "]\n"
        ++ dumps (dget d (s2l "input") (PyVal.dict [])) ++ s2l "\n[/TOOL]")]
    else []
  | PyVal.str s => [PyVal.str s]
  | _ => []

/-- The accumulated `texts` list of `extract_text_content`. -/
def extractTexts : List PyVal → List PyVal
  | [] => []
  | i :: is => itemTexts i ++ extractTexts is

/-- `'\n'.join(texts)`, raising (`Except.error`) when some entry is not a
string, as Python's `str.join` does. -/
def pyJoin : List PyVal → Except Unit (List Char)
  | [] => Except.ok []
  | [v] =>
    match v with
    | PyVal.str s => Except.ok s
    | _ => Except.error ()
  | v :: w :: ws =>
    match v with
    | PyVal.str s =>
      match pyJoin (w :: ws) with
      | Except.ok r => Except.ok (s ++ '\n' :: r)
      | Except.error e => Except.error e
    | _ => Except.error ()

/-- `extract_text_content(content)` (source lines 546-565): a string is
returned verbatim, a list is flattened to newline-joined fragments, and any
other value yields the empty string. -/
def extract_text_content : PyVal → Except Unit (List Char)
  | PyVal.str s => Except.ok s
  | PyVal.list items => pyJoin (extractTexts items)
  | _ => Except.ok []

/-!
## Claims about the renderer
-/

/-- A content block that carries only a `type` tag (every optional field
missing). -/
def typeOnly (t : List Char) : PyVal := PyVal.dict [(s2l "type", PyVal.str t)]

theorem renderItem_typeOnly_ok (t : List Char) :
    ∃ f, renderItem (typeOnly t) = Except.ok f := by
  by_cases h1 : t = s2l "text"
  · subst h1; exact ⟨_, rfl⟩
  · by_cases h2 : t = s2l "thinking"
    · subst h2; exact ⟨_, rfl⟩
    · by_cases h3 : t = s2l "tool_use"
      · subst h3; exact ⟨_, rfl⟩
      · by_cases h4 : t = s2l "tool_result"
        · subst h4; exact ⟨_, rfl⟩
        · refine ⟨none, ?_⟩
          have hty : dget [(s2l "type", PyVal.str t)] (s2l "type") (pstr "") = PyVal.str t :=
            rfl
          simp only [renderItem, typeOnly, hty, pyEqS]
          simp [h1, h2, h3, h4]

theorem renderLoop_typeOnly_ok (ts : List (List Char)) :
    ∃ fs, renderLoop (ts.map typeOnly) = Except.ok fs := by
  induction ts with
  | nil => exact ⟨[], rfl⟩
  | cons t ts ih =>
    obtain ⟨f, hf⟩ := renderItem_typeOnly_ok t
    obtain ⟨fs, hfs⟩ := ih
    exact ⟨f.toList ++ fs, by simp [renderLoop, hf, hfs]⟩

theorem itemTexts_typeOnly_eq (t : List Char) :
    itemTexts (typeOnly t)
      = if t = s2l "text" then [pstr ""]
        else if t = s2l "thinking" then
          [PyVal.str (s2l "[THINKING]\n" ++ (pyStr (pstr "") ++ s2l "\n[/THINKING]"))]
        else if t = s2l "tool_use" then
          [PyVal.str (s2l "[TOOL: " ++ (pyStr (pstr "Unknown") ++ (s2l "]\n"
            ++ (dumps (PyVal.dict []) ++ s2l "\n[/TOOL]"))))]
        else [] := by
  by_cases h1 : t = s2l "text"
  · subst h1; rfl
  · rw [if_neg h1]
    by_cases h2 : t = s2l "thinking"
    · subst h2; rfl
    · rw [if_neg h2]
      by_cases h3 : t = s2l "tool_use"
      · subst h3; rfl
      · rw [if_neg h3]
        have hty : dget [(s2l "type", PyVal.str t)] (s2l "type") PyVal.null = PyVal.str t :=
          rfl
        simp only [itemTexts, typeOnly, hty, pyEqS]
        simp [h1, h2, h3]

theorem itemTexts_typeOnly_str (t : List Char) :
    ∀ v ∈ itemTexts (typeOnly t), isStrB v = true := by
  intro v hv
  rw [itemTexts_typeOnly_eq] at hv
  by_cases h1 : t = s2l "text"
  · rw [if_pos h1] at hv
    simp at hv
    simp [hv, pstr, isStrB]
  · rw [if_neg h1] at hv
    by_cases h2 : t = s2l "thinking"
    · rw [if_pos h2] at hv
      simp at hv
      simp [hv, isStrB]
    · rw [if_neg h2] at hv
      by_cases h3 : t = s2l "tool_use"
      · rw [if_pos h3] at hv
        simp at hv
        simp [hv, isStrB]
      · rw [if_neg h3] at hv
        simp at hv

theorem pyJoin_all_str (l : List PyVal) (h : ∀ v ∈ l, isStrB v = true) :
    ∃ r, pyJoin l = Except.ok r := by
  induction l with
  | nil => exact ⟨[], rfl⟩
  | cons v rest ih =>
    have hv := h v (List.mem_cons_self v rest)
    have hrest := fun x hx => h x (List.mem_cons_of_mem v hx)
    cases v with
    | str s =>
      cases rest with
      | nil => exact ⟨s, rfl⟩
      | cons w ws =>
        obtain ⟨r, hr⟩ := ih hrest
        exact ⟨s ++ '\n' :: r, by simp [pyJoin, hr]⟩
    | null => simp [isStrB] at hv
    | bool b => simp [isStrB] at hv
    | int n => simp [isStrB] at hv
    | list xs => simp [isStrB] at hv
    | dict d => simp [isStrB] at hv

/-- C2 (amended): on content that is neither a string nor a list, the
rendering entry points do NOT raise — they recover with a default
(`extract_text_content` returns the empty string, `render_message_content`
returns the single `(empty message)` placeholder); and for blocks whose
optional fields are all missing (a bare `type` tag), both entry points also
return without raising, every lookup having a defined default. -/
theorem C2_defaults_never_raise :
    (∀ v : PyVal, isStrB v = false → isListB v = false →
      extract_text_content v = Except.ok []
      ∧ render_message_content v = Except.ok emptyMsgHtml)
    ∧ (∀ ts : List (List Char),
      (∃ r, render_message_content (PyVal.list (ts.map typeOnly)) = Except.ok r)
      ∧ (∃ r, extract_text_content (PyVal.list (ts.map typeOnly)) = Except.ok r)) := by
  constructor
  · intro v h1 h2
    cases v with
    | str s => simp [isStrB] at h1
    | list xs => simp [isListB] at h2
    | null => exact ⟨rfl, rfl⟩
    | bool b => exact ⟨rfl, rfl⟩
    | int n => exact ⟨rfl, rfl⟩
    | dict d => exact ⟨rfl, rfl⟩
  · intro ts
    constructor
    · obtain ⟨fs, hfs⟩ := renderLoop_typeOnly_ok ts
      exact ⟨if fs.isEmpty then emptyMsgHtml else joinNL fs,
        by simp [render_message_content, hfs]⟩
    · have hstr : ∀ v ∈ extractTexts (ts.map typeOnly), isStrB v = true := by
        induction ts with
        | nil => intro v hv; simp [extractTexts] at hv
        | cons t ts ih =>
          intro v hv
          simp only [List.map_cons, extractTexts, List.mem_append] at hv
          rcases hv with hv | hv
          · exact itemTexts_typeOnly_str t v hv
          · exact ih v hv
      obtain ⟨r, hr⟩ := pyJoin_all_str _ hstr
      exact ⟨r, by simp [extract_text_content, hr]⟩

/-- C2 counterexample: on the number 5 — content that is neither a string
nor a list — both entry points return normally with a default instead of
propagating a contract error to the caller. -/
theorem C2_counterexample :
    extract_text_content (PyVal.int 5) = Except.ok []
    ∧ ¬ extract_text_content (PyVal.int 5) = Except.error ()
    ∧ render_message_content (PyVal.int 5) = Except.ok emptyMsgHtml
    ∧ ¬ render_message_content (PyVal.int 5) = Except.error () := by
  refine ⟨rfl, fun hq => ?_, rfl, fun hq => ?_⟩
  · rw [show extract_text_content (PyVal.int 5) = Except.ok [] from rfl] at hq
    exact Except.noConfusion hq
  · rw [show render_message_content (PyVal.int 5) = Except.ok emptyMsgHtml from rfl] at hq
    exact Except.noConfusion hq

/-- Witness for C2 at the number 5. -/
theorem C2_witness :
    isStrB (PyVal.int 5) = false ∧ isListB (PyVal.int 5) = false
    ∧ extract_text_content (PyVal.int 5) = Except.ok []
    ∧ render_message_content (PyVal.int 5) = Except.ok emptyMsgHtml :=
  ⟨rfl, rfl, (C2_defaults_never_raise.1 (PyVal.int 5) rfl rfl).1,
    (C2_defaults_never_raise.1 (PyVal.int 5) rfl rfl).2⟩

theorem renderLoop_append (xs zs : List PyVal) :
    renderLoop (xs ++ zs) =
      match renderLoop xs with
      | Except.ok a =>
        match renderLoop zs with
        | Except.ok b => Except.ok (a ++ b)
        | Except.error e => Except.error e
      | Except.error e => Except.error e := by
  induction xs with
  | nil =>
    simp only [List.nil_append, renderLoop]
    cases renderLoop zs <;> simp
  | cons x xs ih =>
    simp only [List.cons_append, renderLoop, List.append_eq]
    rw [ih]
    cases renderItem x with
    | error e => rfl
    | ok f =>
      cases renderLoop xs with
      | error e => rfl
      | ok a =>
        cases renderLoop zs with
        | error e => rfl
        | ok b => simp [List.append_assoc]

theorem renderLoop_cons_str (s : List Char) (ys : List PyVal) :
    renderLoop (PyVal.str s :: ys) = renderLoop ys := by
  simp only [renderLoop, renderItem]
  cases renderLoop ys <;> simp

theorem renderLoop_strs (ss : List (List Char)) :
    renderLoop (ss.map PyVal.str) = Except.ok [] := by
  induction ss with
  | nil => rfl
  | cons s ss ih => rw [List.map_cons, renderLoop_cons_str, ih]

theorem extractTexts_strs (ss : List (List Char)) :
    extractTexts (ss.map PyVal.str) = ss.map PyVal.str := by
  induction ss with
  | nil => rfl
  | cons s ss ih => simp [extractTexts, itemTexts, ih]

theorem pyJoin_map_str (l : List (List Char)) :
    pyJoin (l.map PyVal.str) = Except.ok (joinNL l) := by
  induction l with
  | nil => rfl
  | cons x rest ih =>
    cases rest with
    | nil => rfl
    | cons y ys =>
      simp only [List.map_cons] at ih ⊢
      simp [pyJoin, joinNL, ih]

/-- C10 (confirmed): in formatted rendering a bare string item in a block
list contributes no fragment at all — dropping it leaves the rendering
unchanged — and a list of only bare strings renders as the single
`(empty message)` placeholder, even though plain-text extraction passes the
very same items through verbatim (newline-joined). -/
theorem C10_bare_string_dropped :
    (∀ (xs ys : List PyVal) (s : List Char),
      render_message_content (PyVal.list (xs ++ PyVal.str s :: ys))
        = render_message_content (PyVal.list (xs ++ ys)))
    ∧ (∀ ss : List (List Char),
      render_message_content (PyVal.list (ss.map PyVal.str)) = Except.ok emptyMsgHtml)
    ∧ (∀ ss : List (List Char),
      extract_text_content (PyVal.list (ss.map PyVal.str)) = Except.ok (joinNL ss)) := by
  refine ⟨fun xs ys s => ?_, fun ss => ?_, fun ss => ?_⟩
  · simp only [render_message_content, renderLoop_append, renderLoop_cons_str]
  · simp [render_message_content, renderLoop_strs, List.isEmpty]
  · simp [extract_text_content, extractTexts_strs, pyJoin_map_str]

theorem escMany_append (f : Char → List Char) (a b : List Char) :
    escMany f (a ++ b) = escMany f a ++ escMany f b := by
  induction a with
  | nil => rfl
  | cons c cs ih => simp [escMany, ih]

theorem escChar_len (c : Char) : 1 ≤ (escChar c).length := by
  unfold escChar
  split_ifs <;> first | decide | simp

theorem le_length_esc (s : List Char) : s.length ≤ (esc s).length := by
  induction s with
  | nil => simp [esc, escMany]
  | cons c cs ih =>
    have h := escChar_len c
    simp only [esc, escMany, List.length_cons, List.length_append]
    simp only [esc] at ih
    omega

theorem esc_take_prefix (s : List Char) :
    ∃ tail, esc (s.take 1000) = (esc s).take 1000 ++ tail := by
  by_cases hlen : s.length ≤ 1000
  · rw [List.take_of_length_le hlen]
    exact ⟨(esc s).drop 1000, (List.take_append_drop 1000 (esc s)).symm⟩
  · have h1 : (s.take 1000).length = 1000 := by
      rw [List.length_take]; omega
    have h2 : 1000 ≤ (esc (s.take 1000)).length := by
      have := le_length_esc (s.take 1000)
      omega
    have h3 : esc s = esc (s.take 1000) ++ esc (s.drop 1000) := by
      conv_lhs => rw [← List.take_append_drop 1000 s]
      exact escMany_append escChar _ _
    have h4 : 1000 - (esc (s.take 1000)).length = 0 := by omega
    have h5 : (esc s).take 1000 = (esc (s.take 1000)).take 1000 := by
      rw [h3, List.take_append_eq_append_take, h4, List.take_zero, List.append_nil]
    exact ⟨(esc (s.take 1000)).drop 1000, by rw [h5]; exact (List.take_append_drop 1000 _).symm⟩

/-- C6 (confirmed): rendering a Thinking block produces exactly the
collapsible fragment built from `renderThinkingBody`; the truncated body is a
prefix of the escape of the first 1000 original characters (so it contains at
most 1000 characters of the original body), at most 1000 characters long
before the marker; the marker is appended exactly when the original body
exceeds 1000 characters; and the fragment is wrapped in the
`class="message thinking"` div that the page style collapses by default. -/
theorem C6_thinking_truncation (s : List Char) :
    render_message_content
        (PyVal.list [PyVal.dict [(s2l "type", pstr "thinking"),
          (s2l "thinking", PyVal.str s)]])
      = Except.ok (thinkFragment (renderThinkingBody s))
    ∧ (∃ tail, esc (s.take 1000) = (esc s).take 1000 ++ tail)
    ∧ ((esc s).take 1000).length ≤ 1000
    ∧ (1000 < s.length → renderThinkingBody s = (esc s).take 1000 ++ truncMarker)
    ∧ (s.length ≤ 1000 → renderThinkingBody s = (esc s).take 1000)
    ∧ (∃ post, thinkFragment (renderThinkingBody s)
        = ('\n' :: spaces 24) ++ (s2l "<div class=\"message thinking\">" ++ post)) := by
  refine ⟨rfl, esc_take_prefix s, ?_, fun h => ?_, fun h => ?_, ?_⟩
  · exact List.length_take_le 1000 (esc s)
  · simp [renderThinkingBody, h]
  · have h2 : ¬(1000 < s.length) := by omega
    simp [renderThinkingBody, h2]
  · exact ⟨_, rfl⟩

/-- Witness for C6: a 2000-character thinking body is cut to the first 1000
escaped characters with the truncation marker appended. -/
theorem C6_witness :
    1000 < (List.replicate 2000 'a').length
    ∧ renderThinkingBody (List.replicate 2000 'a')
        = (esc (List.replicate 2000 'a')).take 1000 ++ truncMarker :=
  ⟨by rw [List.length_replicate]; omega,
   (C6_thinking_truncation (List.replicate 2000 'a')).2.2.2.1
     (by rw [List.length_replicate]; omega)⟩

/-!
## C7: plain-text extraction block by block
-/

/-- The string carried by a (well-typed) field value. -/
def asStr : PyVal → List Char
  | PyVal.str s => s
  | _ => []

/-- Whether a list item satisfies the ContentBlock data model as far as
`extract_text_content` needs it (string-typed `text` / `thinking` / `name`
fields where the block's branch reads them; bare strings and unknown blocks
are always fine). -/
def itemOkB : PyVal → Bool
  | PyVal.dict d =>
    if pyEqS (dget d (s2l "type") PyVal.null) (s2l "text") then
      isStrB (dget d (s2l "text") (pstr ""))
    else if pyEqS (dget d (s2l "type") PyVal.null) (s2l "thinking") then
      isStrB (dget d (s2l "thinking") (pstr ""))
    else if pyEqS (dget d (s2l "type") PyVal.null) (s2l "tool_use") then
      isStrB (dget d (s2l "name") (pstr "Unknown"))
    else true
  | _ => true

/-- Claim-side (C7, following the spec's words): the plain-text fragment one
block contributes — `Text` its text; `Thinking` its text between the literal
`[THINKING]`/`[/THINKING]` markers on their own lines; `ToolUse` its name and
its input serialized as indented JSON between `[TOOL: <name>]`/`[/TOOL]`; a
bare string verbatim; any other block nothing (defaults: empty text, name
`Unknown`, empty input mapping). -/
def specFragment : PyVal → Option (List Char)
  | PyVal.dict d =>
    if pyEqS (dget d (s2l "type") PyVal.null) (s2l "text") then
      some (asStr (dget d (s2l "text") (pstr "")))
    else if pyEqS (dget d (s2l "type") PyVal.null) (s2l "thinking") then
      some (s2l "[THINKING]\n" ++ (asStr (dget d (s2l "thinking") (pstr ""))
        ++ s2l "\n[/THINKING]"))
    else if pyEqS (dget d (s2l "type") PyVal.null) (s2l "tool_use") then
      some (s2l "[TOOL: " ++ (asStr (dget d (s2l "name") (pstr "Unknown")) ++ (s2l "]\n"
        ++ (dumps (dget d (s2l "input") (PyVal.dict [])) ++ s2l "\n[/TOOL]"))))
    else none
  | PyVal.str s => some s
  | _ => none

theorem itemTexts_spec (i : PyVal) (h : itemOkB i = true) :
    itemTexts i = ((specFragment i).toList).map PyVal.str := by
  cases i with
  | dict d =>
    simp only [itemTexts, specFragment, itemOkB] at h ⊢
    by_cases h1 : pyEqS (dget d (s2l "type") PyVal.null) (s2l "text") = true
    · rw [if_pos h1] at h ⊢
      rw [if_pos h1]
      cases hf : dget d (s2l "text") (pstr "") with
      | str tx => simp [asStr]
      | null => rw [hf] at h; simp [isStrB] at h
      | bool b => rw [hf] at h; simp [isStrB] at h
      | int n => rw [hf] at h; simp [isStrB] at h
      | list xs => rw [hf] at h; simp [isStrB] at h
      | dict d2 => rw [hf] at h; simp [isStrB] at h
    · rw [if_neg h1] at h ⊢
      rw [if_neg h1]
      by_cases h2 : pyEqS (dget d (s2l "type") PyVal.null) (s2l "thinking") = true
      · rw [if_pos h2] at h ⊢
        rw [if_pos h2]
        cases hf : dget d (s2l "thinking") (pstr "") with
        | str tx => simp [asStr, pyStr]
        | null => rw [hf] at h; simp [isStrB] at h
        | bool b => rw [hf] at h; simp [isStrB] at h
        | int n => rw [hf] at h; simp [isStrB] at h
        | list xs => rw [hf] at h; simp [isStrB] at h
        | dict d2 => rw [hf] at h; simp [isStrB] at h
      · rw [if_neg h2] at h ⊢
        rw [if_neg h2]
        by_cases h3 : pyEqS (dget d (s2l "type") PyVal.null) (s2l "tool_use") = true
        · rw [if_pos h3] at h ⊢
          rw [if_pos h3]
          cases hf : dget d (s2l "name") (pstr "Unknown") with
          | str tx => simp [asStr, pyStr]
          | null => rw [hf] at h; simp [isStrB] at h
          | bool b => rw [hf] at h; simp [isStrB] at h
          | int n => rw [hf] at h; simp [isStrB] at h
          | list xs => rw [hf] at h; simp [isStrB] at h
          | dict d2 => rw [hf] at h; simp [isStrB] at h
        · rw [if_neg h3, if_neg h3]
          rfl
  | str s => rfl
  | null => rfl
  | bool b => rfl
  | int n => rfl
  | list xs => rfl

theorem extractTexts_spec (items : List PyVal) (h : ∀ i ∈ items, itemOkB i = true) :
    extractTexts items = (items.filterMap specFragment).map PyVal.str := by
  induction items with
  | nil => rfl
  | cons i rest ih =>
    have hi := itemTexts_spec i (h i (List.mem_cons_self i rest))
    have ihr := ih (fun x hx => h x (List.mem_cons_of_mem i hx))
    simp only [extractTexts, List.filterMap_cons, hi, ihr]
    cases specFragment i <;> simp

/-- C7 (confirmed): for a block list of well-typed ContentBlocks, plain-text
extraction is exactly the newline-join, in block order, of the per-block
fragments the spec describes (Text → its text, Thinking → `[THINKING]`-marked
text, ToolUse → `[TOOL: name]`-marked indented-JSON input, bare string →
verbatim, anything else → nothing); and a plain string input is returned
verbatim. -/
theorem C7_extract_plain_text (items : List PyVal) (h : ∀ i ∈ items, itemOkB i = true) :
    extract_text_content (PyVal.list items)
      = Except.ok (joinNL (items.filterMap specFragment))
    ∧ ∀ s : List Char, extract_text_content (PyVal.str s) = Except.ok s := by
  refine ⟨?_, fun s => rfl⟩
  simp only [extract_text_content]
  rw [extractTexts_spec items h, pyJoin_map_str]

/-- Witness for C7 at the spec's two test vectors: a thinking block `x` and a
text block `hi`. -/
theorem C7_witness :
    extract_text_content
        (PyVal.list [PyVal.dict [(s2l "type", pstr "thinking"), (s2l "thinking", pstr "x")]])
      = Except.ok (s2l "[THINKING]\nx\n[/THINKING]")
    ∧ extract_text_content
        (PyVal.list [PyVal.dict [(s2l "type", pstr "text"), (s2l "text", pstr "hi")]])
      = Except.ok (s2l "hi") := by
  constructor
  · exact ((C7_extract_plain_text
      [PyVal.dict [(s2l "type", pstr "thinking"), (s2l "thinking", pstr "x")]]
      (by decide)).1).trans (by rfl)
  · exact ((C7_extract_plain_text
      [PyVal.dict [(s2l "type", pstr "text"), (s2l "text", pstr "hi")]]
      (by decide)).1).trans (by rfl)

/-- C8 (confirmed): for a Bash ToolUse block, the formatted body is
`$ <command>`, prefixed by `# <description>` on its own line when the
description is non-empty, and the rendered fragment is the tool-call unit
containing the escape of exactly that body. -/
theorem C8_bash_display (c d : List Char) :
    (d ≠ [] → bashDisplay [(s2l "command", PyVal.str c), (s2l "description", PyVal.str d)]
        = s2l "# " ++ d ++ s2l "\n$ " ++ c)
    ∧ (d = [] → bashDisplay [(s2l "command", PyVal.str c), (s2l "description", PyVal.str d)]
        = s2l "$ " ++ c)
    ∧ render_message_content
        (PyVal.list [PyVal.dict [(s2l "type", pstr "tool_use"), (s2l "name", pstr "Bash"),
          (s2l "input", PyVal.dict [(s2l "command", PyVal.str c),
            (s2l "description", PyVal.str d)])]])
      = Except.ok (toolFragment (s2l "Bash")
          (esc (bashDisplay [(s2l "command", PyVal.str c),
            (s2l "description", PyVal.str d)]))) := by
  refine ⟨fun hd => ?_, fun hd => ?_, rfl⟩
  · have hcond : pyTruthy (dget [(s2l "command", PyVal.str c), (s2l "description", PyVal.str d)]
        (s2l "description") (pstr "")) = true := by
      rw [show dget [(s2l "command", PyVal.str c), (s2l "description", PyVal.str d)]
          (s2l "description") (pstr "") = PyVal.str d from rfl]
      cases d with
      | nil => exact absurd rfl hd
      | cons a as => rfl
    unfold bashDisplay
    rw [if_pos hcond,
      show pyStr (dget [(s2l "command", PyVal.str c), (s2l "description", PyVal.str d)]
        (s2l "description") (pstr "")) = d from rfl,
      show pyStr (dget [(s2l "command", PyVal.str c), (s2l "description", PyVal.str d)]
        (s2l "command") (pstr "")) = c from rfl]
  · subst hd
    have hcond : pyTruthy (dget [(s2l "command", PyVal.str c),
        (s2l "description", PyVal.str ([] : List Char))]
        (s2l "description") (pstr "")) = false := rfl
    unfold bashDisplay
    rw [if_neg (by rw [hcond]; exact fun hq => Bool.noConfusion hq),
      show pyStr (dget [(s2l "command", PyVal.str c),
        (s2l "description", PyVal.str ([] : List Char))]
        (s2l "command") (pstr "")) = c from rfl]

/-- Witness for C8 at the spec's test vector `{command:"ls -la",
description:"list files"}`. -/
theorem C8_witness :
    s2l "list files" ≠ []
    ∧ bashDisplay [(s2l "command", PyVal.str (s2l "ls -la")),
        (s2l "description", PyVal.str (s2l "list files"))]
      = s2l "# list files\n$ ls -la" :=
  ⟨by decide,
   ((C8_bash_display (s2l "ls -la") (s2l "list files")).1 (by decide)).trans (by rfl)⟩

/-!
## Session indexer catalog ordering (`get_all_sessions`, source lines 707-756)
-/

/-- One catalog entry as assembled by `get_all_sessions` (source lines
741-750); the file modification time is modeled as an integer — only its
ordering matters to the sort. -/
structure Session where
  id : List Char
  project : List Char
  modified : Int
  size : Int
  messageCount : Nat
  preview : List Char
  summary : List Char

/-- Stable descending insertion: the element goes before the first existing
element whose modification time is not larger (so it stays before later
discovered entries with the same time). -/
def insertDesc (x : Session) : List Session → List Session
  | [] => [x]
  | y :: ys => if y.modified ≤ x.modified then x :: y :: ys else y :: insertDesc x ys

/-- The catalog ordering of `get_all_sessions` (source lines 754-755):
`sessions.sort(key=lambda x: x['modified'], reverse=True)`, a stable sort by
modification time descending over the discovery-ordered list.  A stable sort
with a fixed key is extensionally unique, so this insertion sort computes
exactly what Python's stable `list.sort` does. -/
def sortSessions : List Session → List Session
  | [] => []
  | x :: xs => insertDesc x (sortSessions xs)

theorem mem_insertDesc (a x : Session) (l : List Session) :
    a ∈ insertDesc x l ↔ a = x ∨ a ∈ l := by
  induction l with
  | nil => simp [insertDesc]
  | cons y ys ih =>
    simp only [insertDesc]
    by_cases hle : y.modified ≤ x.modified
    · rw [if_pos hle]; simp
    · rw [if_neg hle]
      simp [ih]
      tauto

theorem pairwise_insertDesc (x : Session) (l : List Session)
    (h : List.Pairwise (fun a b => b.modified ≤ a.modified) l) :
    List.Pairwise (fun a b => b.modified ≤ a.modified) (insertDesc x l) := by
  induction l with
  | nil => simp [insertDesc]
  | cons y ys ih =>
    simp only [insertDesc]
    rcases h with _ | ⟨hy, hys⟩
    by_cases hle : y.modified ≤ x.modified
    · rw [if_pos hle]
      refine List.Pairwise.cons ?_ (List.Pairwise.cons hy hys)
      intro z hz
      rcases List.mem_cons.mp hz with hz | hz
      · subst hz; exact hle
      · exact le_trans (hy z hz) hle
    · rw [if_neg hle]
      refine List.Pairwise.cons ?_ (ih hys)
      intro z hz
      rcases (mem_insertDesc z x ys).mp hz with hz | hz
      · subst hz; omega
      · exact hy z hz

theorem filter_insertDesc (x : Session) (l : List Session) (m : Int) :
    (insertDesc x l).filter (fun s => s.modified == m)
      = if x.modified == m then x :: l.filter (fun s => s.modified == m)
        else l.filter (fun s => s.modified == m) := by
  induction l with
  | nil =>
    by_cases hx : (x.modified == m) = true
    · simp [insertDesc, List.filter_cons, hx]
    · simp [insertDesc, List.filter_cons, hx]
  | cons y ys ih =>
    by_cases hle : y.modified ≤ x.modified
    · simp [insertDesc, hle, List.filter_cons]
    · by_cases hx : (x.modified == m) = true
      · have h1 : x.modified = m := beq_iff_eq.mp hx
        have hym : (y.modified == m) = false := by
          have h2 : y.modified ≠ m := by omega
          simp [h2]
        simp [insertDesc, hle, List.filter_cons, hx, hym, ih]
      · have hx2 : (x.modified == m) = false := by
          rw [Bool.not_eq_true] at hx; exact hx
        simp [insertDesc, hle, List.filter_cons, hx2, ih]

theorem perm_insertDesc (x : Session) (l : List Session) :
    List.Perm (insertDesc x l) (x :: l) := by
  induction l with
  | nil => simp [insertDesc]
  | cons y ys ih =>
    simp only [insertDesc]
    by_cases hle : y.modified ≤ x.modified
    · rw [if_pos hle]
    · rw [if_neg hle]
      exact List.Perm.trans (List.Perm.cons y ih) (List.Perm.swap x y ys)

/-- C9 (confirmed): the SessionSummary catalog is the discovery-ordered
session list stably sorted by modification time descending — the output is
sorted descending, it is a permutation of the input, and for every
modification time the entries carrying it keep exactly their relative
discovery order. -/
theorem C9_catalog_sorted_stable (ss : List Session) :
    List.Pairwise (fun a b => b.modified ≤ a.modified) (sortSessions ss)
    ∧ (∀ m : Int, (sortSessions ss).filter (fun s => s.modified == m)
        = ss.filter (fun s => s.modified == m))
    ∧ List.Perm (sortSessions ss) ss := by
  refine ⟨?_, fun m => ?_, ?_⟩
  · induction ss with
    | nil => simp [sortSessions]
    | cons x xs ih => exact pairwise_insertDesc x (sortSessions xs) ih
  · induction ss with
    | nil => rfl
    | cons x xs ih =>
      rw [sortSessions, filter_insertDesc, ih]
      by_cases hx : (x.modified == m) = true
      · rw [if_pos hx]
        simp [List.filter_cons, hx]
      · rw [Bool.not_eq_true] at hx
        rw [if_neg (by rw [hx]; exact fun hq => Bool.noConfusion hq)]
        simp [List.filter_cons, hx]
  · induction ss with
    | nil => exact List.Perm.refl []
    | cons x xs ih =>
      exact List.Perm.trans (perm_insertDesc x (sortSessions xs)) (List.Perm.cons x ih)

end ChatViewer
